import Mathlib

/-!
Verification development for the LineupLogic projection-and-recommendation
engine (`backend/app/main.py`).

Shallow embedding conventions:
* Python strings are Lean `String`s; `.strip()` / `.upper()` are modelled
  character-by-character (`pyStrip` / `pyUpper`) so that concrete instances
  reduce in the kernel.  The inputs of interest are ASCII team codes, for
  which these agree with Python.
* `datetime` values are UTC epoch seconds as `ℚ`; `timedelta(days=d)` is
  `d * 86400` seconds.  `time.time()` values are also `ℚ` seconds.
* ISO-8601 parsing of a schedule entry's date string is represented by the
  entry carrying the parse outcome directly: each aliased date field of a
  game record is `Option (Option ℚ)` — `none` means the field is absent or
  falsy (e.g. `None` or the empty string, which Python's `or`-chain skips),
  `some none` means a truthy string whose parse fails, and `some (some t)`
  means a truthy string parsing to UTC time `t`.
* The external scoreboard fetch (`_fetch_espn_nba_scoreboard_for_date`) is a
  parameter `fetch : ℕ → Except FetchErr Scoreboard` indexed by day offset;
  `Except.error` models the transport-level exceptions (`HTTPError`,
  `URLError`, any other `Exception`) that the Python code catches.
* The module-level mutable cache `_TEAM_SCHEDULE_CACHE` is threaded as an
  explicit `CacheState`; functions that may refresh it return the new state
  together with the number of external queries performed, so that "no
  external query happened" is expressible.
* Python `dict`s with string keys are association lists with unique keys
  (the `Counter` aggregation below preserves key uniqueness).
* Python 3 `round` on these inputs is round-half-to-even on the exact
  rational (`pyRound`); the means that arise have denominator at most 30,
  far from any value where binary-float rounding could disagree.
-/

/-- Python `str.upper` on an ASCII character. -/
def pyUpperChar (c : Char) : Char :=
  if 'a' ≤ c ∧ c ≤ 'z' then Char.ofNat (c.toNat - 32) else c

/-- Python whitespace for `str.strip`. -/
def pyIsSpace (c : Char) : Bool :=
  c = ' ' ∨ c = '\t' ∨ c = '\n' ∨ c = '\r' ∨ c = Char.ofNat 11 ∨ c = Char.ofNat 12

/-- Python `str.upper` (ASCII fragment). -/
def pyUpper (s : String) : String := String.mk (s.data.map pyUpperChar)

/-- Python `str.strip` (ASCII fragment). -/
def pyStrip (s : String) : String :=
  String.mk (((s.data.dropWhile pyIsSpace).reverse.dropWhile pyIsSpace).reverse)

/-- Python 3 `round` to an integer: round-half-to-even on the exact rational. -/
def pyRound (q : ℚ) : ℤ :=
  if q - (⌊q⌋ : ℚ) < 1/2 then ⌊q⌋
  else if (1:ℚ)/2 < q - (⌊q⌋ : ℚ) then ⌊q⌋ + 1
  else if ⌊q⌋ % 2 = 0 then ⌊q⌋ else ⌊q⌋ + 1

/-- `NBA_TEAM_ABBREVS`: the fixed 30-element canonical team vocabulary. -/
def NBA_TEAM_ABBREVS : List String :=
  ["ATL","BOS","BKN","CHA","CHI","CLE","DAL","DEN","DET","GSW","HOU","IND",
   "LAC","LAL","MEM","MIA","MIL","MIN","NOP","NYK","OKC","ORL","PHI","PHX",
   "POR","SAC","SAS","TOR","UTA","WAS"]

/-- `TEAM_ABBREV_NORMALIZE`: static alias table. -/
def TEAM_ABBREV_NORMALIZE : List (String × String) :=
  [("GS","GSW"),("NO","NOP"),("SA","SAS"),("PHO","PHX"),("BK","BKN"),
   ("NY","NYK"),("WSH","WAS")]

/-- `normalize_team_abbrev`: trim, upper-case, alias-map, then check
membership in the canonical vocabulary.  `none` input or the falsy empty
string yields `none`. -/
def normalize_team_abbrev (ab : Option String) : Option String :=
  match ab with
  | none => none
  | some s =>
    if s = "" then none
    else
      let a := pyUpper (pyStrip s)
      let a := (TEAM_ABBREV_NORMALIZE.lookup a).getD a
      if a ∈ NBA_TEAM_ABBREVS then some a else none

/-- One schedule entry of a player (`g` in `_parse_game_datetime`).  Each
aliased date field holds `none` when absent/falsy, `some none` when present
but unparsable, `some (some t)` when parsing to UTC epoch seconds `t`. -/
structure Game where
  date : Option (Option ℚ)
  startDate : Option (Option ℚ)
  startTime : Option (Option ℚ)
  gameDate : Option (Option ℚ)
  gameTime : Option (Option ℚ)
deriving DecidableEq

/-- A player record as the engine reads it (duck-typed attributes become
`Option` fields; `projected_avg_points` is `some none` when present but not
convertible to `float`). -/
structure Player where
  playerId : Option ℤ
  player_id : Option ℤ
  id : Option ℤ
  espn_id : Option ℤ
  name : Option String
  position : Option String
  proTeam : Option String
  injuryStatus : Option String
  avg_points : Option ℚ
  projected_avg_points : Option (Option ℚ)
  schedule : Option (List Game)
deriving DecidableEq

/-- `is_unavailable`: injury status, trimmed and upper-cased, is in
`{"OUT", "SUSPENSION"}`. -/
def is_unavailable (p : Player) : Bool :=
  let status := pyUpper (pyStrip (p.injuryStatus.getD ""))
  status = "OUT" ∨ status = "SUSPENSION"

/-- `get_player_id`: first non-null of the aliased id fields. -/
def get_player_id (p : Player) : Option ℤ :=
  match p.playerId with
  | some v => some v
  | none =>
    match p.player_id with
    | some v => some v
    | none =>
      match p.id with
      | some v => some v
      | none => p.espn_id

/-- `get_points_per_game`: the provider's projected per-game average when
present and numeric, otherwise the historical average (absence, `None` and
other falsy values become 0). -/
def get_points_per_game (p : Player) : ℚ :=
  match p.projected_avg_points with
  | some (some v) => v
  | _ => p.avg_points.getD 0

/-- `_parse_game_datetime`: pick the first truthy aliased date field and
return its parse outcome (`none` when no field is truthy or the parse
fails). -/
def parse_game_datetime (g : Game) : Option ℚ :=
  match g.date with
  | some r => r
  | none =>
    match g.startDate with
    | some r => r
    | none =>
      match g.startTime with
      | some r => r
      | none =>
        match g.gameDate with
        | some r => r
        | none =>
          match g.gameTime with
          | some r => r
          | none => none

/-- `schedule_has_parsable_dates`: the schedule is a non-empty list with at
least one entry whose date parses. -/
def schedule_has_parsable_dates (p : Player) : Bool :=
  match p.schedule with
  | none => false
  | some sched => sched.any (fun g => (parse_game_datetime g).isSome)

/-- `games_next_n_days_from_player_schedule`: count schedule entries whose
parsed time lies in `[now, now + days·86400]`, both bounds inclusive;
unparsable entries are skipped.  `now` is the UTC reference instant. -/
def games_next_n_days_from_player_schedule (now : ℚ) (p : Player) (days : ℤ) : ℤ :=
  match p.schedule with
  | none => 0
  | some sched =>
    ((sched.filterMap parse_game_datetime).filter
      (fun dt => decide (now ≤ dt) && decide (dt ≤ now + (days : ℚ) * 86400))).length

/-- One competitor of a scoreboard competition; `abbreviation` is the raw
team code (`none` when the `team` dict or the field is absent/falsy). -/
structure Competitor where
  abbreviation : Option String
deriving DecidableEq

/-- One competition of a scoreboard event. -/
structure Competition where
  competitors : List Competitor
deriving DecidableEq

/-- One scoreboard event. -/
structure ScoreboardEvent where
  competitions : List Competition
deriving DecidableEq

/-- The payload of one per-date scoreboard query. -/
structure Scoreboard where
  events : List ScoreboardEvent
deriving DecidableEq

/-- The transport-level exceptions caught by `get_team_games_cache`:
`HTTPError` (with its `code` attribute when present), `URLError`, and any
other `Exception`. -/
inductive FetchErr where
  | httpError (code : Option ℤ) (msg : String)
  | urlError (msg : String)
  | otherExc (msg : String)
deriving DecidableEq

/-- Diagnostic string recorded in `last_error` for a caught exception. -/
def FetchErr.detail : FetchErr → String
  | .httpError _ msg => "HTTPError: " ++ msg
  | .urlError msg => "URLError: " ++ msg
  | .otherExc msg => "Exception: " ++ msg

/-- `last_status` recorded for a caught exception. -/
def FetchErr.status : FetchErr → Option ℤ
  | .httpError code _ => code
  | .urlError _ => none
  | .otherExc _ => none

/-- `Counter`-style increment on an association list: bump the existing key
or append `(k, 1)`, keeping keys unique. -/
def counterIncr (counts : List (String × ℤ)) (k : String) : List (String × ℤ) :=
  if (counts.lookup k).isSome then
    counts.map (fun kv => if kv.1 = k then (kv.1, kv.2 + 1) else kv)
  else counts ++ [(k, 1)]

/-- Aggregate one scoreboard event: take the first competition (skip events
with none) and count each competitor whose team code normalizes. -/
def aggregateEvent (counts : List (String × ℤ)) (ev : ScoreboardEvent) :
    List (String × ℤ) :=
  match ev.competitions with
  | [] => counts
  | comp :: _ =>
    comp.competitors.foldl
      (fun cs c =>
        match normalize_team_abbrev c.abbreviation with
        | some ab => counterIncr cs ab
        | none => cs)
      counts

/-- Aggregate a whole scoreboard day. -/
def aggregateDay (counts : List (String × ℤ)) (sb : Scoreboard) :
    List (String × ℤ) :=
  sb.events.foldl aggregateEvent counts

/-- Body of `_compute_team_games_next_n_days`: query each remaining day
offset in order, aggregating; the first failing fetch aborts the whole
computation (Python propagates the exception).  Also returns the number of
external queries performed. -/
def computeDays (fetch : ℕ → Except FetchErr Scoreboard) :
    List ℕ → List (String × ℤ) → Except FetchErr (List (String × ℤ)) × ℕ
  | [], acc => (Except.ok acc, 0)
  | i :: rest, acc =>
    match fetch i with
    | Except.error e => (Except.error e, 1)
    | Except.ok sb =>
      let r := computeDays fetch rest (aggregateDay acc sb)
      (r.1, r.2 + 1)

/-- `_compute_team_games_next_n_days`: aggregate day offsets `0 .. days`
(matching Python `range(days + 1)`), then keep only canonical keys
(`{k: int(v) for k, v in counts.items() if k in NBA_TEAM_ABBREVS}`). -/
def compute_team_games_next_n_days (fetch : ℕ → Except FetchErr Scoreboard)
    (days : ℤ) : Except FetchErr (List (String × ℤ)) × ℕ :=
  let r := computeDays fetch (List.range (days + 1).toNat) []
  (r.1.map (fun counts => counts.filter (fun kv => kv.1 ∈ NBA_TEAM_ABBREVS)), r.2)

/-- `_TEAM_SCHEDULE_CACHE`: the process-wide mutable cache record. -/
structure CacheState where
  ts : ℚ
  days : Option ℤ
  counts : List (String × ℤ)
  last_error : Option String
  last_status : Option ℤ
deriving DecidableEq

/-- The cache as initialised at module load. -/
def initCache : CacheState :=
  { ts := 0, days := none, counts := [], last_error := none, last_status := none }

/-- Result of one `get_team_games_cache` call: the returned mapping, the
cache state afterwards, and the number of external queries performed. -/
structure GetCountsResult where
  result : List (String × ℤ)
  state : CacheState
  queries : ℕ
deriving DecidableEq

/-- The `cache_ok` validity predicate of `get_team_games_cache`: same window
size, fresh within the TTL, and a non-empty counts mapping (the
`isinstance(…, dict)` conjunct always holds in the model). -/
def cache_ok (st : CacheState) (now_ts : ℚ) (days : ℤ) (ttl_seconds : ℚ) : Bool :=
  st.days = some days ∧ now_ts - st.ts < ttl_seconds ∧ st.counts ≠ []

/-- `get_team_games_cache`: return the cached mapping on a valid hit;
otherwise refresh, storing either the fresh counts (success) or an empty
mapping plus diagnostics (caught transport exception), in both cases with
the current timestamp and requested window size. -/
def get_team_games_cache (fetch : ℕ → Except FetchErr Scoreboard)
    (now_ts : ℚ) (st : CacheState) (days : ℤ) (ttl_seconds : ℚ) :
    GetCountsResult :=
  if cache_ok st now_ts days ttl_seconds then
    { result := st.counts, state := st, queries := 0 }
  else
    match compute_team_games_next_n_days fetch days with
    | (Except.ok counts, q) =>
      { result := counts
        state := { ts := now_ts, days := some days, counts := counts,
                   last_error := none, last_status := some 200 }
        queries := q }
    | (Except.error e, q) =>
      { result := []
        state := { ts := now_ts, days := some days, counts := [],
                   last_error := some e.detail, last_status := e.status }
        queries := q }

/-- `games_next_n_days`: tier 1 trusts a parsable personal schedule; tier 2
returns 0 when the team code does not normalize; otherwise consult the team
cache (ttl 900): present team → its count, absent team in a non-empty
mapping → rounded league average, empty mapping → 0.  `now` serves as both
`datetime.now` (seconds) and `time.time()`. -/
def games_next_n_days (fetch : ℕ → Except FetchErr Scoreboard) (now : ℚ)
    (st : CacheState) (p : Player) (days : ℤ) : ℤ × CacheState × ℕ :=
  if schedule_has_parsable_dates p then
    (games_next_n_days_from_player_schedule now p days, st, 0)
  else
    match normalize_team_abbrev p.proTeam with
    | none => (0, st, 0)
    | some team_abbrev =>
      let r := get_team_games_cache fetch now st days 900
      match r.result.lookup team_abbrev with
      | some v => (v, r.state, r.queries)
      | none =>
        if r.result ≠ [] then
          (pyRound ((r.result.map Prod.snd).sum / (r.result.length : ℚ)),
           r.state, r.queries)
        else (0, r.state, r.queries)

/-- `projected_points_next_n_days`: rate times games, with the three-way
policy for `g = 0` (parsable schedule → exactly 0; otherwise unscaled
rate). -/
def projected_points_next_n_days (fetch : ℕ → Except FetchErr Scoreboard)
    (now : ℚ) (st : CacheState) (p : Player) (days : ℤ) : ℚ × CacheState × ℕ :=
  let ppg := get_points_per_game p
  let r := games_next_n_days fetch now st p days
  let g := r.1
  if g = 0 ∧ schedule_has_parsable_dates p then (0, r.2.1, r.2.2)
  else if g ≤ 0 then (ppg * 1, r.2.1, r.2.2)
  else (ppg * (g : ℚ), r.2.1, r.2.2)

/-- One emitted recommendation: add/drop pair with the expected gain. -/
structure Reco (α : Type) where
  add : α
  drop : α
  gain : ℚ
deriving DecidableEq

/-- The inner scan of the matching loop: the FIRST drop candidate whose
projected points are strictly below the free agent's (`delta > 0`). -/
def findDrop {α : Type} (pts : α → ℚ) (fa_pts : ℚ) : List α → Option α
  | [] => none
  | dp :: rest => if 0 < fa_pts - pts dp then some dp else findDrop pts fa_pts rest

/-- The free-agent loop of `waiver_recommendations`.  `used` is
`used_add_ids` (a set of possibly-`None` Python ids), `recs` the
accumulator.  A free agent whose id was already used is skipped with
`continue`, which also skips the limit check; otherwise the limit check
(`len(recommendations) >= limit: break`) runs after the inner scan, whether
or not a recommendation was emitted. -/
def recsLoop {α : Type} (pts : α → ℚ) (pid : α → Option ℤ)
    (drop_candidates : List α) (limit : ℤ) :
    List α → List (Option ℤ) → List (Reco α) → List (Reco α)
  | [], _, recs => recs
  | fa :: rest, used, recs =>
    if pid fa ∈ used then recsLoop pts pid drop_candidates limit rest used recs
    else
      match findDrop pts (pts fa) drop_candidates with
      | some dp =>
        if limit ≤ ((recs ++ [(⟨fa, dp, pts fa - pts dp⟩ : Reco α)]).length : ℤ) then
          recs ++ [⟨fa, dp, pts fa - pts dp⟩]
        else
          recsLoop pts pid drop_candidates limit rest (used ++ [pid fa])
            (recs ++ [⟨fa, dp, pts fa - pts dp⟩])
      | none =>
        if limit ≤ (recs.length : ℤ) then recs
        else recsLoop pts pid drop_candidates limit rest used recs

/-- Outcome of the `waiver_recommendations` handler after team lookup:
404 for an unknown forced-drop id, the early empty-roster response (which
carries no drop-candidate list), or the normal response. -/
inductive WaiverResult (α : Type) where
  | dropNotFound : WaiverResult α
  | emptyRoster : WaiverResult α
  | ok (drop_candidates : List α) (recommendations : List (Reco α)) : WaiverResult α
deriving DecidableEq

/-- The core of the `/league/nba/recommendations/waivers` handler, from the
roster onward, parameterised by the projection function `pts` (the code
evaluates `projected_points_next_n_days` for a fixed window against the
shared cache) and the id function `pid` (`get_player_id`).  Mirrors the
source order: availability filter, empty-roster early return, forced-drop
lookup (404 when absent), drop-candidate selection (ascending sort, lowest
6, overridden by the forced singleton), free-agent filter and descending
sort, then the greedy loop.  Python's `sorted` is a stable sort by key
(with `reverse=True` comparing reversed, ties in original order); it is
modelled by the stable `List.insertionSort` with the corresponding total
preorders. -/
def waiver_recommendations {α : Type} (pts : α → ℚ) (pid : α → Option ℤ)
    (unavailable : α → Bool) (roster : List α) (free_agents : List α)
    (limit : ℤ) (drop_player_id : Option ℤ) : WaiverResult α :=
  let roster_f := roster.filter (fun p => !(unavailable p))
  if roster_f.isEmpty then WaiverResult.emptyRoster
  else
    let forced : Option (Option α) :=
      match drop_player_id with
      | none => none
      | some did => some (roster_f.find? (fun p => pid p = some did))
    match forced with
    | some none => WaiverResult.dropNotFound
    | forced =>
      let sorted_roster := roster_f.insertionSort (fun a b => pts a ≤ pts b)
      let drop_candidates :=
        match forced with
        | some (some fp) => [fp]
        | _ => sorted_roster.take 6
      let fa_f := free_agents.filter (fun p => !(unavailable p))
      let fa_sorted := fa_f.insertionSort (fun a b => pts b ≤ pts a)
      WaiverResult.ok drop_candidates (recsLoop pts pid drop_candidates limit fa_sorted [] [])

/-! ## Helper lemmas -/

theorem pyRound_nearest (q : ℚ) : |((pyRound q : ℤ) : ℚ) - q| ≤ 1/2 := by
  unfold pyRound
  have h0 : (⌊q⌋ : ℚ) ≤ q := Int.floor_le q
  have h1 : q < (⌊q⌋ : ℚ) + 1 := Int.lt_floor_add_one q
  by_cases hc : q - (⌊q⌋:ℚ) < 1/2
  · simp only [hc, if_true]
    rw [abs_le]; constructor <;> linarith
  · simp only [hc, if_false]
    by_cases hc2 : (1:ℚ)/2 < q - (⌊q⌋:ℚ)
    · simp only [hc2, if_true]
      push_cast
      rw [abs_le]; constructor <;> linarith
    · by_cases hc3 : ⌊q⌋ % 2 = 0 <;> simp only [hc2, hc3, if_true, if_false]
      · rw [abs_le]; constructor <;> linarith
      · push_cast; rw [abs_le]; constructor <;> linarith

theorem pyRound_nonneg (q : ℚ) (h : 0 ≤ q) : 0 ≤ pyRound q := by
  unfold pyRound
  have h0 : (0:ℤ) ≤ ⌊q⌋ := Int.floor_nonneg.2 h
  split
  · exact h0
  · split
    · omega
    · split <;> omega

/-- The windowed filter-count over a schedule equals a per-entry `countP`
(entries with unparsable dates never count). -/
theorem schedule_filter_count (now : ℚ) (days : ℤ) (sched : List Game) :
    ((sched.filterMap parse_game_datetime).filter
      (fun dt => decide (now ≤ dt) && decide (dt ≤ now + (days : ℚ) * 86400))).length
    = sched.countP (fun g =>
        match parse_game_datetime g with
        | some t => decide (now ≤ t ∧ t ≤ now + (days : ℚ) * 86400)
        | none => false) := by
  induction sched with
  | nil => rfl
  | cons g rest ih =>
    rw [List.filterMap_cons, List.countP_cons]
    cases hg : parse_game_datetime g with
    | none => simpa [hg] using ih
    | some t =>
      by_cases hin : now ≤ t ∧ t ≤ now + (days : ℚ) * 86400
      · simp [List.filter_cons, hg, hin.1, hin.2, ih]
      · rw [Decidable.not_and_iff_or_not] at hin
        rcases hin with hin | hin <;>
          simp [List.filter_cons, hg, hin, ih, Decidable.not_and_iff_or_not]

/-! ## C3 -/

/-- C3: when the player's schedule has at least one parsable entry, the
resolver returns exactly the number of entries whose parsed UTC time `t`
satisfies `now ≤ t ≤ now + windowDays` (inclusive bounds, unparsable entries
skipped) — even when that count is zero — and neither touches the cache
state nor performs any external query. -/
theorem C3_tier1_exclusive_inclusive_window
    (fetch : ℕ → Except FetchErr Scoreboard) (now : ℚ) (st : CacheState)
    (p : Player) (days : ℤ)
    (h : schedule_has_parsable_dates p = true) :
    (games_next_n_days fetch now st p days).1
      = ((p.schedule.getD []).countP (fun g =>
          match parse_game_datetime g with
          | some t => decide (now ≤ t ∧ t ≤ now + (days : ℚ) * 86400)
          | none => false) : ℤ)
    ∧ (games_next_n_days fetch now st p days).2.1 = st
    ∧ (games_next_n_days fetch now st p days).2.2 = 0 := by
  cases hs : p.schedule with
  | none => rw [schedule_has_parsable_dates, hs] at h; exact absurd h (by simp)
  | some sched =>
    refine ⟨?_, ?_, ?_⟩ <;>
      simp [games_next_n_days, h, games_next_n_days_from_player_schedule, hs,
        schedule_filter_count]

/-- A shared concrete failing fetch (transport failure on every date). -/
def fetchFail : ℕ → Except FetchErr Scoreboard :=
  fun _ => Except.error (FetchErr.urlError "unreachable")

/-- A shared concrete empty player record. -/
def emptyPlayer : Player :=
  { playerId := none, player_id := none, id := none, espn_id := none,
    name := none, position := none, proTeam := none, injuryStatus := none,
    avg_points := none, projected_avg_points := none, schedule := none }

/-- A schedule entry parsing to UTC time 100. -/
def gameAt100 : Game :=
  { date := some (some 100), startDate := none, startTime := none,
    gameDate := none, gameTime := none }

/-- A player whose personal schedule holds one game at time 100. -/
def playerSched100 : Player := { emptyPlayer with schedule := some [gameAt100] }

/-- Witness for C3: for the one-game schedule above with `now = 0`,
`days = 7`, the resolver returns 1 without touching cache or network. -/
theorem C3_witness :
    (games_next_n_days fetchFail 0 initCache playerSched100 7).1 = 1
    ∧ (games_next_n_days fetchFail 0 initCache playerSched100 7).2.1 = initCache
    ∧ (games_next_n_days fetchFail 0 initCache playerSched100 7).2.2 = 0 := by
  have h := C3_tier1_exclusive_inclusive_window fetchFail 0 initCache
    playerSched100 7
    (by simp [schedule_has_parsable_dates, playerSched100, emptyPlayer,
          gameAt100, parse_game_datetime])
  refine ⟨?_, h.2.1, h.2.2⟩
  rw [h.1]
  norm_num [playerSched100, emptyPlayer, gameAt100, List.countP_cons,
    parse_game_datetime]

/-! ## C2 -/

/-- The three-way combination policy as the spec states it: the rate is the
provider's projected per-game average if present and numeric, else the
historical per-game average with absence as 0; `g = 0` with a parsable
personal schedule gives exactly 0; otherwise `g ≤ 0` gives the rate
unscaled; otherwise rate times `g`. -/
def projectedPoints_policy (fetch : ℕ → Except FetchErr Scoreboard)
    (now : ℚ) (st : CacheState) (p : Player) (days : ℤ) : ℚ :=
  let rate : ℚ :=
    match p.projected_avg_points with
    | some (some v) => v
    | _ => p.avg_points.getD 0
  let g := (games_next_n_days fetch now st p days).1
  if g = 0 ∧ schedule_has_parsable_dates p = true then 0
  else if g ≤ 0 then rate
  else rate * (g : ℚ)

/-- C2: the implementation's projection agrees with the spec's three-way
policy on every player, window, cache state and scoreboard oracle. -/
theorem C2_three_way_projection (fetch : ℕ → Except FetchErr Scoreboard)
    (now : ℚ) (st : CacheState) (p : Player) (days : ℤ) :
    (projected_points_next_n_days fetch now st p days).1
      = projectedPoints_policy fetch now st p days := by
  simp only [projected_points_next_n_days, projectedPoints_policy,
    get_points_per_game, mul_one]
  split_ifs with h1 h2 <;> simp_all

/-! ## C1 -/

theorem computeDays_queries_pos (fetch : ℕ → Except FetchErr Scoreboard)
    (l : List ℕ) (acc : List (String × ℤ)) (hl : l ≠ []) :
    1 ≤ (computeDays fetch l acc).2 := by
  cases l with
  | nil => exact absurd rfl hl
  | cons i rest =>
    rw [computeDays]
    cases hf : fetch i with
    | error e => simp
    | ok sb => simp

/-- C1 counterexample: after a refresh attempt fails at time 0 (storing an
empty mapping with updated timestamp and window size), a second call at time
10 — within the 900-second TTL, same window size 7 — performs another
refresh attempt (1 external query), contradicting "a failed refresh is not
retried more often than the TTL". -/
theorem C1_counterexample :
    ((get_team_games_cache fetchFail 0 initCache 7 900).state.ts = 0
     ∧ (get_team_games_cache fetchFail 0 initCache 7 900).state.days = some 7
     ∧ (get_team_games_cache fetchFail 0 initCache 7 900).state.counts = [])
    ∧ (get_team_games_cache fetchFail 10
         (get_team_games_cache fetchFail 0 initCache 7 900).state 7 900).queries ≠ 0 := by
  have h1 : get_team_games_cache fetchFail 0 initCache 7 900 =
      { result := [],
        state := { ts := 0, days := some 7, counts := [],
                   last_error := some "URLError: unreachable",
                   last_status := none },
        queries := 1 } := rfl
  rw [h1]
  refine ⟨⟨rfl, rfl, rfl⟩, ?_⟩
  have h2 : cache_ok
      { ts := 0, days := some 7, counts := [],
        last_error := some "URLError: unreachable", last_status := none }
      10 7 900 = false := by
    simp [cache_ok]
  simp [get_team_games_cache, h2, compute_team_games_next_n_days, computeDays,
    fetchFail, List.range_succ, Except.map]

/-- C1 (amended): (i) a valid cache hit — same window size, fresh within the
TTL, non-empty counts — returns the cached mapping unchanged with no
external query; (ii) a failed refresh stores an empty mapping while still
updating the timestamp and window size; (iii) but because validity requires
non-empty counts, any call finding empty cached counts performs a refresh
attempt, so a failed refresh IS retried before the TTL expires. -/
theorem C1_cache_semantics (fetch : ℕ → Except FetchErr Scoreboard)
    (now : ℚ) (st : CacheState) (days : ℤ) (ttl : ℚ) :
    (cache_ok st now days ttl = true →
       get_team_games_cache fetch now st days ttl
         = { result := st.counts, state := st, queries := 0 })
    ∧ (∀ e q, compute_team_games_next_n_days fetch days = (Except.error e, q) →
         cache_ok st now days ttl = false →
         (get_team_games_cache fetch now st days ttl).result = []
         ∧ (get_team_games_cache fetch now st days ttl).state.counts = []
         ∧ (get_team_games_cache fetch now st days ttl).state.ts = now
         ∧ (get_team_games_cache fetch now st days ttl).state.days = some days)
    ∧ (st.counts = [] → 0 ≤ days →
         1 ≤ (get_team_games_cache fetch now st days ttl).queries) := by
  refine ⟨?_, ?_, ?_⟩
  · intro h
    simp [get_team_games_cache, h]
  · intro e q hc hok
    simp [get_team_games_cache, hok, hc]
  · intro hempty hdays
    have hok : cache_ok st now days ttl = false := by
      simp [cache_ok, hempty]
    have hne : List.range (days + 1).toNat ≠ [] := by
      simp only [ne_eq, List.range_eq_nil]
      omega
    have hq := computeDays_queries_pos fetch (List.range (days + 1).toNat) [] hne
    rw [get_team_games_cache, hok]
    simp only [Bool.false_eq_true, if_false]
    rw [compute_team_games_next_n_days]
    rcases hr : computeDays fetch (List.range (days + 1).toNat) [] with ⟨r1, r2⟩
    rw [hr] at hq
    cases r1 <;> simpa using hq

/-- A concrete valid (fresh, non-empty) cache state. -/
def stGood : CacheState :=
  { ts := 0, days := some 7, counts := [("BOS", 2)],
    last_error := none, last_status := some 200 }

/-- The concrete cache state left behind by a failed refresh at time 0. -/
def stFailed : CacheState :=
  { ts := 0, days := some 7, counts := [],
    last_error := some "URLError: unreachable", last_status := none }

/-- Witness for C1 (amended) at concrete inputs: a valid hit at time 10
returns the cached mapping with no query; the failed refresh at time 0
stores timestamp 0, window 7 and empty counts; a call from the failed state
at time 5 performs at least one external query. -/
theorem C1_witness :
    (get_team_games_cache fetchFail 10 stGood 7 900
       = { result := stGood.counts, state := stGood, queries := 0 })
    ∧ ((get_team_games_cache fetchFail 0 initCache 7 900).result = []
       ∧ (get_team_games_cache fetchFail 0 initCache 7 900).state.counts = []
       ∧ (get_team_games_cache fetchFail 0 initCache 7 900).state.ts = 0
       ∧ (get_team_games_cache fetchFail 0 initCache 7 900).state.days = some 7)
    ∧ 1 ≤ (get_team_games_cache fetchFail 5 stFailed 7 900).queries := by
  refine ⟨?_, ?_, ?_⟩
  · exact (C1_cache_semantics fetchFail 10 stGood 7 900).1
      (by norm_num [cache_ok, stGood])
  · exact (C1_cache_semantics fetchFail 0 initCache 7 900).2.1
      (FetchErr.urlError "unreachable") 1 rfl (by simp [cache_ok, initCache])
  · exact (C1_cache_semantics fetchFail 5 stFailed 7 900).2.2 rfl (by norm_num)

/-! ## C5 -/

/-- C5: when the player's schedule is unparsable/absent, the team code
normalizes to a canonical code, and that code is absent from the non-empty
mapping returned by the cache call, the resolver returns the arithmetic mean
of all present teams' counts rounded by Python 3 `round` — a nearest
integer (within 1/2 of the mean). -/
theorem C5_league_average_estimate
    (fetch : ℕ → Except FetchErr Scoreboard) (now : ℚ) (st : CacheState)
    (p : Player) (days : ℤ) (team : String)
    (hpar : schedule_has_parsable_dates p = false)
    (hteam : normalize_team_abbrev p.proTeam = some team)
    (habs : (get_team_games_cache fetch now st days 900).result.lookup team = none)
    (hne : (get_team_games_cache fetch now st days 900).result ≠ []) :
    (games_next_n_days fetch now st p days).1
      = pyRound
          ((((get_team_games_cache fetch now st days 900).result.map Prod.snd).sum : ℚ)
            / ((get_team_games_cache fetch now st days 900).result.length : ℚ))
    ∧ |(((games_next_n_days fetch now st p days).1 : ℚ)
        - (((get_team_games_cache fetch now st days 900).result.map Prod.snd).sum : ℚ)
            / ((get_team_games_cache fetch now st days 900).result.length : ℚ))| ≤ 1/2 := by
  have hg : (games_next_n_days fetch now st p days).1
      = pyRound
          ((((get_team_games_cache fetch now st days 900).result.map Prod.snd).sum : ℚ)
            / ((get_team_games_cache fetch now st days 900).result.length : ℚ)) := by
    rw [games_next_n_days, hpar]
    simp only [Bool.false_eq_true, if_false, hteam, habs, hne, ne_eq,
      not_false_eq_true, if_true]
  exact ⟨hg, by rw [hg]; exact pyRound_nearest _⟩

/-- A cache state holding counts `{ATL: 5, BOS: 7}`. -/
def stTwoTeams : CacheState :=
  { ts := 0, days := some 7, counts := [("ATL", 5), ("BOS", 7)],
    last_error := none, last_status := some 200 }

/-- A schedule-less player on canonical team CHI. -/
def playerCHI : Player := { emptyPlayer with proTeam := some "CHI" }

/-- Witness for C5: cache counts `{ATL:5, BOS:7}`, absent team CHI:
the estimate is `round((5+7)/2) = 6`. -/
theorem C5_witness :
    (games_next_n_days fetchFail 10 stTwoTeams playerCHI 7).1 = 6 := by
  have hok : cache_ok stTwoTeams 10 7 900 = true := by
    simp [cache_ok, stTwoTeams]
    norm_num
  have hhit : get_team_games_cache fetchFail 10 stTwoTeams 7 900
      = { result := stTwoTeams.counts, state := stTwoTeams, queries := 0 } := by
    rw [get_team_games_cache, hok]
    simp
  have h := C5_league_average_estimate fetchFail 10 stTwoTeams playerCHI 7 "CHI"
    (by simp [schedule_has_parsable_dates, playerCHI, emptyPlayer])
    rfl
    (by rw [hhit]; rfl)
    (by rw [hhit]; decide)
  rw [h.1, hhit]
  norm_num [stTwoTeams, pyRound]

/-! ## C7 -/

/-- C7: the resolver is total by construction in this embedding (every
branch yields an integer); moreover a transport-level failure during a
refresh is absorbed — `get_team_games_cache` returns an empty mapping and
stores it with the error detail, and the resolver observes that as the
0-game fallback instead of a failed request. -/
theorem C7_never_raises_failure_absorbed
    (fetch : ℕ → Except FetchErr Scoreboard) (now : ℚ) (st : CacheState)
    (p : Player) (days : ℤ) (e : FetchErr) (q : ℕ)
    (hfail : compute_team_games_next_n_days fetch days = (Except.error e, q))
    (hok : cache_ok st now days 900 = false)
    (hpar : schedule_has_parsable_dates p = false)
    (team : String)
    (hteam : normalize_team_abbrev p.proTeam = some team) :
    (get_team_games_cache fetch now st days 900).result = []
    ∧ (get_team_games_cache fetch now st days 900).state.counts = []
    ∧ (get_team_games_cache fetch now st days 900).state.last_error = some e.detail
    ∧ (games_next_n_days fetch now st p days).1 = 0 := by
  have hcache : get_team_games_cache fetch now st days 900
      = { result := []
          state := { ts := now, days := some days, counts := [],
                     last_error := some e.detail, last_status := e.status }
          queries := q } := by
    rw [get_team_games_cache, hok]
    simp [hfail]
  refine ⟨by rw [hcache], by rw [hcache], by rw [hcache], ?_⟩
  rw [games_next_n_days, hpar]
  simp only [Bool.false_eq_true, if_false, hteam, hcache]
  rfl

/-- Witness for C7: with the always-failing fetch, a fresh cache and the
schedule-less CHI player, the cache ends empty with the URL error recorded
and the resolver returns 0. -/
theorem C7_witness :
    (get_team_games_cache fetchFail 0 initCache 7 900).result = []
    ∧ (get_team_games_cache fetchFail 0 initCache 7 900).state.counts = []
    ∧ (get_team_games_cache fetchFail 0 initCache 7 900).state.last_error
        = some (FetchErr.urlError "unreachable").detail
    ∧ (games_next_n_days fetchFail 0 initCache playerCHI 7).1 = 0 :=
  C7_never_raises_failure_absorbed fetchFail 0 initCache playerCHI 7
    (FetchErr.urlError "unreachable") 1 rfl (by simp [cache_ok, initCache])
    (by simp [schedule_has_parsable_dates, playerCHI, emptyPlayer]) "CHI" rfl

/-! ## Counter invariants (C9, C10) -/

theorem lookup_mem {l : List (String × ℤ)} {k : String} {v : ℤ}
    (h : l.lookup k = some v) : (k, v) ∈ l := by
  induction l with
  | nil => simp [List.lookup] at h
  | cons kv rest ih =>
    rcases kv with ⟨a, b⟩
    by_cases hk : k = a
    · subst hk
      simp [List.lookup] at h
      simp [h]
    · have hbeq : (k == a) = false := beq_eq_false_iff_ne.2 hk
      rw [List.lookup, hbeq] at h
      exact List.mem_cons_of_mem _ (ih h)

theorem counterIncr_vals {l : List (String × ℤ)} {k : String}
    (h : ∀ kv ∈ l, 1 ≤ kv.2) : ∀ kv ∈ counterIncr l k, 1 ≤ kv.2 := by
  intro kv hkv
  rw [counterIncr] at hkv
  split at hkv
  · rcases List.mem_map.1 hkv with ⟨kv0, hkv0, heq⟩
    by_cases hk : kv0.1 = k
    · rw [if_pos hk] at heq
      have h1 := h kv0 hkv0
      rw [← heq]
      show 1 ≤ kv0.2 + 1
      omega
    · rw [if_neg hk] at heq
      rw [← heq]
      exact h kv0 hkv0
  · rcases List.mem_append.1 hkv with hkv2 | hkv2
    · exact h kv hkv2
    · simp at hkv2
      simp [hkv2]

/-- Value bound for the competitor fold inside `aggregateEvent`. -/
theorem foldCompetitors_vals (cs : List Competitor) (l : List (String × ℤ))
    (h : ∀ kv ∈ l, 1 ≤ kv.2) :
    ∀ kv ∈ cs.foldl
        (fun cs2 c =>
          match normalize_team_abbrev c.abbreviation with
          | some ab => counterIncr cs2 ab
          | none => cs2) l,
      1 ≤ kv.2 := by
  induction cs generalizing l with
  | nil => exact h
  | cons c rest ih =>
    rw [List.foldl_cons]
    rcases hc : normalize_team_abbrev c.abbreviation with _ | ab <;> simp only [hc]
    · exact ih l h
    · exact ih _ (counterIncr_vals h)

theorem aggregateEvent_vals {l : List (String × ℤ)} {ev : ScoreboardEvent}
    (h : ∀ kv ∈ l, 1 ≤ kv.2) : ∀ kv ∈ aggregateEvent l ev, 1 ≤ kv.2 := by
  rw [aggregateEvent]
  rcases hcomp : ev.competitions with _ | ⟨comp, rest⟩ <;> simp only []
  · exact h
  · exact foldCompetitors_vals comp.competitors l h

theorem foldEvents_vals (evs : List ScoreboardEvent) (l : List (String × ℤ))
    (h : ∀ kv ∈ l, 1 ≤ kv.2) :
    ∀ kv ∈ evs.foldl aggregateEvent l, 1 ≤ kv.2 := by
  induction evs generalizing l with
  | nil => exact h
  | cons ev evs ih =>
    rw [List.foldl_cons]
    exact ih _ (aggregateEvent_vals h)

theorem aggregateDay_vals {l : List (String × ℤ)} {sb : Scoreboard}
    (h : ∀ kv ∈ l, 1 ≤ kv.2) : ∀ kv ∈ aggregateDay l sb, 1 ≤ kv.2 := by
  rw [aggregateDay]
  exact foldEvents_vals sb.events l h

theorem computeDays_vals {fetch : ℕ → Except FetchErr Scoreboard}
    {ds : List ℕ} {acc counts : List (String × ℤ)}
    (hacc : ∀ kv ∈ acc, 1 ≤ kv.2)
    (h : (computeDays fetch ds acc).1 = Except.ok counts) :
    ∀ kv ∈ counts, 1 ≤ kv.2 := by
  induction ds generalizing acc with
  | nil =>
    rw [computeDays] at h
    injection h with h
    exact h ▸ hacc
  | cons i rest ih =>
    rw [computeDays] at h
    rcases hf : fetch i with e | sb <;> rw [hf] at h
    · exact absurd h (by simp)
    · exact ih (aggregateDay_vals hacc) h

theorem compute_ok_vals {fetch : ℕ → Except FetchErr Scoreboard} {days : ℤ}
    {counts : List (String × ℤ)} {q : ℕ}
    (h : compute_team_games_next_n_days fetch days = (Except.ok counts, q)) :
    ∀ kv ∈ counts, 1 ≤ kv.2 := by
  rw [compute_team_games_next_n_days] at h
  rcases hr : (computeDays fetch (List.range (days + 1).toNat) []).1 with e | cc <;>
    rw [hr] at h
  · exact absurd h (by simp [Except.map])
  · have h2 : counts = cc.filter (fun kv => kv.1 ∈ NBA_TEAM_ABBREVS) := by
      simp [Except.map] at h
      exact h.1.symm
    intro kv hkv
    rw [h2] at hkv
    exact computeDays_vals (by simp) hr kv (List.mem_of_mem_filter hkv)

theorem compute_ok_keys {fetch : ℕ → Except FetchErr Scoreboard} {days : ℤ}
    {counts : List (String × ℤ)} {q : ℕ}
    (h : compute_team_games_next_n_days fetch days = (Except.ok counts, q)) :
    ∀ kv ∈ counts, kv.1 ∈ NBA_TEAM_ABBREVS := by
  rw [compute_team_games_next_n_days] at h
  rcases hr : (computeDays fetch (List.range (days + 1).toNat) []).1 with e | cc <;>
    rw [hr] at h
  · exact absurd h (by simp [Except.map])
  · have h2 : counts = cc.filter (fun kv => kv.1 ∈ NBA_TEAM_ABBREVS) := by
      simp [Except.map] at h
      exact h.1.symm
    intro kv hkv
    rw [h2] at hkv
    simpa using (List.mem_filter.1 hkv).2

/-! ## C9 -/

/-- C9: after any `get_team_games_cache` call on a state whose counts keys
are canonical (as every reachable state's are, starting from the empty
initial cache), the stored counts mapping — and the returned mapping — is
either empty or keyed only by the fixed 30-element canonical vocabulary;
codes failing normalization are dropped during aggregation and never appear
as keys. -/
theorem C9_cache_key_invariant (fetch : ℕ → Except FetchErr Scoreboard)
    (now : ℚ) (st : CacheState) (days : ℤ) (ttl : ℚ)
    (hst : ∀ kv ∈ st.counts, kv.1 ∈ NBA_TEAM_ABBREVS) :
    (∀ kv ∈ (get_team_games_cache fetch now st days ttl).state.counts,
        kv.1 ∈ NBA_TEAM_ABBREVS)
    ∧ (∀ kv ∈ (get_team_games_cache fetch now st days ttl).result,
        kv.1 ∈ NBA_TEAM_ABBREVS)
    ∧ (∀ kv ∈ initCache.counts, kv.1 ∈ NBA_TEAM_ABBREVS) := by
  rw [get_team_games_cache]
  split
  · exact ⟨hst, hst, by simp [initCache]⟩
  · split
    case _ counts q heq =>
      exact ⟨compute_ok_keys heq, compute_ok_keys heq, by simp [initCache]⟩
    case _ e q heq =>
      exact ⟨by simp, by simp, by simp [initCache]⟩

/-- Witness for C9 at a concrete canonical state and the failing fetch. -/
theorem C9_witness :
    (∀ kv ∈ (get_team_games_cache fetchFail 10 stGood 7 900).state.counts,
        kv.1 ∈ NBA_TEAM_ABBREVS)
    ∧ (∀ kv ∈ (get_team_games_cache fetchFail 10 stGood 7 900).result,
        kv.1 ∈ NBA_TEAM_ABBREVS) :=
  ⟨(C9_cache_key_invariant fetchFail 10 stGood 7 900 (by decide)).1,
   (C9_cache_key_invariant fetchFail 10 stGood 7 900 (by decide)).2.1⟩

/-! ## C10 -/

/-- C10: a successful refresh stores only positive values (a team is a key
only if it appeared in at least one aggregated game), so the cache-hit tier
of the resolver never returns 0, and a team with no scheduled games is
absent from the mapping and receives the league-average estimate instead of
0. -/
theorem C10_cache_values_positive (fetch : ℕ → Except FetchErr Scoreboard)
    (now : ℚ) (st : CacheState) (days : ℤ) (p : Player) (team : String)
    (counts : List (String × ℤ)) (q : ℕ)
    (hpar : schedule_has_parsable_dates p = false)
    (hteam : normalize_team_abbrev p.proTeam = some team)
    (hok : cache_ok st now days 900 = false)
    (hcomp : compute_team_games_next_n_days fetch days = (Except.ok counts, q)) :
    (∀ kv ∈ counts, 1 ≤ kv.2)
    ∧ (∀ v, counts.lookup team = some v →
        (games_next_n_days fetch now st p days).1 = v ∧ 1 ≤ v)
    ∧ (counts.lookup team = none → counts ≠ [] →
        (games_next_n_days fetch now st p days).1
          = pyRound (((counts.map Prod.snd).sum : ℚ) / (counts.length : ℚ))) := by
  have hvals := compute_ok_vals hcomp
  have hcache : get_team_games_cache fetch now st days 900
      = { result := counts
          state := { ts := now, days := some days, counts := counts,
                     last_error := none, last_status := some 200 }
          queries := q } := by
    rw [get_team_games_cache, hok]
    simp [hcomp]
  refine ⟨hvals, ?_, ?_⟩
  · intro v hv
    constructor
    · rw [games_next_n_days, hpar]
      simp only [Bool.false_eq_true, if_false, hteam, hcache, hv]
    · exact hvals (team, v) (lookup_mem hv)
  · intro habs hne
    rw [games_next_n_days, hpar]
    simp only [Bool.false_eq_true, if_false, hteam, hcache, habs, hne, ne_eq,
      not_false_eq_true, if_true]

/-- A one-day scoreboard oracle: a single game between BOS and ATL. -/
def fetchOne : ℕ → Except FetchErr Scoreboard :=
  fun _ => Except.ok
    { events := [{ competitions :=
        [{ competitors := [{ abbreviation := some "BOS" },
                           { abbreviation := some "ATL" }] }] }] }

/-- A schedule-less player on canonical team BOS. -/
def playerBOS : Player := { emptyPlayer with proTeam := some "BOS" }

/-- Witness for C10: with the one-game oracle over window 0, BOS (a key,
count 1) resolves to 1 via the cache-hit tier, and absent CHI resolves to
the league average `round((1+1)/2) = 1`. -/
theorem C10_witness :
    (games_next_n_days fetchOne 0 initCache playerBOS 0).1 = 1
    ∧ (games_next_n_days fetchOne 0 initCache playerCHI 0).1 = 1 := by
  have h1 := C10_cache_values_positive fetchOne 0 initCache 0 playerBOS "BOS"
    [("BOS", 1), ("ATL", 1)] 1 rfl rfl (by simp [cache_ok, initCache]) rfl
  have h2 := C10_cache_values_positive fetchOne 0 initCache 0 playerCHI "CHI"
    [("BOS", 1), ("ATL", 1)] 1 rfl rfl (by simp [cache_ok, initCache]) rfl
  constructor
  · exact (h1.2.1 1 rfl).1
  · have h3 := h2.2.2 rfl (by decide)
    rw [h3]
    norm_num [pyRound]

/-! ## C8 -/

theorem getCounts_result_nonneg (fetch : ℕ → Except FetchErr Scoreboard)
    (now : ℚ) (st : CacheState) (days : ℤ) (ttl : ℚ)
    (hst : ∀ kv ∈ st.counts, 0 ≤ kv.2) :
    ∀ kv ∈ (get_team_games_cache fetch now st days ttl).result, 0 ≤ kv.2 := by
  rw [get_team_games_cache]
  split
  · exact hst
  · split
    case _ counts q heq =>
      intro kv hkv
      have := compute_ok_vals heq kv hkv
      omega
    case _ e q heq => simp

/-- A player with a negative historical scoring average and no schedule. -/
def negPlayer : Player := { emptyPlayer with avg_points := some (-1) }

/-- C8 counterexample: a player with `avg_points = -1`, no provider
projection, no schedule and no team receives projection `-1 < 0` — the
scoring rate passes through unclamped, so `projectedPoints` is not always
`≥ 0`. -/
theorem C8_counterexample :
    (projected_points_next_n_days fetchFail 0 initCache negPlayer 7).1 < 0 := by
  have h : (projected_points_next_n_days fetchFail 0 initCache negPlayer 7).1
      = (-1 : ℚ) * 1 := rfl
  rw [h]
  norm_num

/-- C8 (amended): the resolver always returns an integer `≥ 0` (for any
cache state with nonnegative stored counts, which covers every reachable
state); the projection is `≥ 0` whenever the selected scoring rate is
`≥ 0` — a negative provider rate passes through with its sign. -/
theorem C8_nonneg_outputs (fetch : ℕ → Except FetchErr Scoreboard)
    (now : ℚ) (st : CacheState) (p : Player) (days : ℤ)
    (hst : ∀ kv ∈ st.counts, 0 ≤ kv.2) :
    0 ≤ (games_next_n_days fetch now st p days).1
    ∧ (0 ≤ get_points_per_game p →
        0 ≤ (projected_points_next_n_days fetch now st p days).1) := by
  have hgames : 0 ≤ (games_next_n_days fetch now st p days).1 := by
    by_cases hpar : schedule_has_parsable_dates p = true
    · rw [games_next_n_days, hpar]
      simp only [if_true]
      rw [games_next_n_days_from_player_schedule]
      cases p.schedule with
      | none => simp
      | some sched => exact Int.natCast_nonneg _
    · have hpar2 : schedule_has_parsable_dates p = false := by simpa using hpar
      rw [games_next_n_days, hpar2]
      simp only [Bool.false_eq_true, if_false]
      cases hteam : normalize_team_abbrev p.proTeam with
      | none => simp
      | some team =>
        simp only []
        have hr := getCounts_result_nonneg fetch now st days 900 hst
        cases hv : (get_team_games_cache fetch now st days 900).result.lookup team with
        | some v => simpa using hr (team, v) (lookup_mem hv)
        | none =>
          simp only [hv]
          split
          · apply pyRound_nonneg
            apply div_nonneg
            · have : ∀ x ∈ ((get_team_games_cache fetch now st days 900).result.map
                  Prod.snd), (0:ℤ) ≤ x := by
                intro x hx
                rcases List.mem_map.1 hx with ⟨kv, hkv, hx2⟩
                exact hx2 ▸ hr kv hkv
              exact_mod_cast List.sum_nonneg this
            · positivity
          · simp
  refine ⟨hgames, ?_⟩
  intro hppg
  rw [projected_points_next_n_days]
  split_ifs with h1 h2
  · exact le_refl 0
  · simpa using hppg
  · have hgpos : 0 < (games_next_n_days fetch now st p days).1 := by omega
    exact mul_nonneg hppg (by exact_mod_cast le_of_lt hgpos)

/-- Witness for C8 (amended) at a concrete schedule-less player with rate 0
over the empty initial cache. -/
theorem C8_witness :
    0 ≤ (games_next_n_days fetchFail 0 initCache playerBOS 7).1
    ∧ 0 ≤ (projected_points_next_n_days fetchFail 0 initCache playerBOS 7).1 := by
  have h := C8_nonneg_outputs fetchFail 0 initCache playerBOS 7 (by simp [initCache])
  exact ⟨h.1, h.2 (le_of_eq rfl)⟩

/-! ## Greedy-loop lemmas (C4, C6) -/

theorem findDrop_pos {α : Type} (pts : α → ℚ) (q : ℚ) (l : List α) (dp : α)
    (h : findDrop pts q l = some dp) : 0 < q - pts dp := by
  induction l with
  | nil => simp [findDrop] at h
  | cons x xs ih =>
    rw [findDrop] at h
    split at h
    · injection h with h
      subst h
      assumption
    · exact ih h

theorem findDrop_mem {α : Type} (pts : α → ℚ) (q : ℚ) (l : List α) (dp : α)
    (h : findDrop pts q l = some dp) : dp ∈ l := by
  induction l with
  | nil => simp [findDrop] at h
  | cons x xs ih =>
    rw [findDrop] at h
    split at h
    · injection h with h
      subst h
      exact List.mem_cons_self x xs
    · exact List.mem_cons_of_mem x (ih h)

theorem recsLoop_length_bound {α : Type} (pts : α → ℚ) (pid : α → Option ℤ)
    (dc : List α) (limit : ℤ) :
    ∀ (fas : List α) (used : List (Option ℤ)) (recs : List (Reco α)),
      (((recsLoop pts pid dc limit fas used recs).length : ℤ))
        ≤ max limit ((recs.length : ℤ) + 1) := by
  intro fas
  induction fas with
  | nil =>
    intro used recs
    rw [recsLoop]
    exact le_trans (by omega) (le_max_right _ _)
  | cons fa rest ih =>
    intro used recs
    rw [recsLoop]
    by_cases hmem : pid fa ∈ used
    · rw [if_pos hmem]
      exact ih used recs
    · rw [if_neg hmem]
      rcases hdp : findDrop pts (pts fa) dc with _ | dp <;> simp only [hdp]
      · split
        · exact le_trans (by omega) (le_max_right _ _)
        · exact ih used recs
      · split
        case _ hlim =>
          simp only [List.length_append, List.length_cons, List.length_nil]
          exact le_trans (by push_cast; omega) (le_max_right _ _)
        case _ hlim =>
          have hb := ih (used ++ [pid fa]) (recs ++ [(⟨fa, dp, pts fa - pts dp⟩ : Reco α)])
          simp only [List.length_append, List.length_cons, List.length_nil] at hb hlim ⊢
          rcases le_max_iff.1 hb with hb2 | hb2
          · exact le_max_of_le_left hb2
          · push_cast at hb2 hlim ⊢
            omega
  
theorem recsLoop_mem {α : Type} (pts : α → ℚ) (pid : α → Option ℤ)
    (dc : List α) (limit : ℤ) :
    ∀ (fas : List α) (used : List (Option ℤ)) (recs : List (Reco α))
      (r : Reco α), r ∈ recsLoop pts pid dc limit fas used recs →
      r ∈ recs ∨ (findDrop pts (pts r.add) dc = some r.drop
        ∧ r.gain = pts r.add - pts r.drop) := by
  intro fas
  induction fas with
  | nil =>
    intro used recs r hr
    rw [recsLoop] at hr
    exact Or.inl hr
  | cons fa rest ih =>
    intro used recs r hr
    rw [recsLoop] at hr
    by_cases hmem : pid fa ∈ used
    · rw [if_pos hmem] at hr
      exact ih _ _ r hr
    · rw [if_neg hmem] at hr
      rcases hdp : findDrop pts (pts fa) dc with _ | dp <;> simp only [hdp] at hr
      · split at hr
        · exact Or.inl hr
        · exact ih _ _ r hr
      · split at hr
        · rcases List.mem_append.1 hr with h | h
          · exact Or.inl h
          · simp only [List.mem_singleton] at h
            subst h
            exact Or.inr ⟨hdp, rfl⟩
        · rcases ih _ _ r hr with h | h
          · rcases List.mem_append.1 h with h2 | h2
            · exact Or.inl h2
            · simp only [List.mem_singleton] at h2
              subst h2
              exact Or.inr ⟨hdp, rfl⟩
          · exact Or.inr h

theorem recsLoop_split {α : Type} (pts : α → ℚ) (pid : α → Option ℤ)
    (dc : List α) (limit : ℤ) :
    ∀ (fas : List α) (used : List (Option ℤ)) (recs : List (Reco α)),
      ∃ sub, recsLoop pts pid dc limit fas used recs = recs ++ sub
        ∧ (sub.map (fun r => r.add)).Sublist fas := by
  intro fas
  induction fas with
  | nil =>
    intro used recs
    exact ⟨[], by rw [recsLoop]; simp, by simp⟩
  | cons fa rest ih =>
    intro used recs
    rw [recsLoop]
    by_cases hmem : pid fa ∈ used
    · rw [if_pos hmem]
      obtain ⟨sub, h1, h2⟩ := ih used recs
      exact ⟨sub, h1, h2.cons fa⟩
    · rw [if_neg hmem]
      rcases hdp : findDrop pts (pts fa) dc with _ | dp <;> simp only [hdp]
      · split
        · exact ⟨[], by simp, by simp⟩
        · obtain ⟨sub, h1, h2⟩ := ih used recs
          exact ⟨sub, h1, h2.cons fa⟩
      · split
        · exact ⟨[⟨fa, dp, pts fa - pts dp⟩], rfl, by simp⟩
        · obtain ⟨sub, h1, h2⟩ :=
            ih (used ++ [pid fa]) (recs ++ [(⟨fa, dp, pts fa - pts dp⟩ : Reco α)])
          refine ⟨⟨fa, dp, pts fa - pts dp⟩ :: sub, ?_, ?_⟩
          · rw [h1]
            simp
          · simp only [List.map_cons]
            exact h2.cons₂ fa

theorem recsLoop_nodup {α : Type} (pts : α → ℚ) (pid : α → Option ℤ)
    (dc : List α) (limit : ℤ) :
    ∀ (fas : List α) (used : List (Option ℤ)) (recs : List (Reco α)),
      (∀ r ∈ recs, pid r.add ∈ used) →
      ((recs.map (fun r => pid r.add)).Nodup) →
      (((recsLoop pts pid dc limit fas used recs).map (fun r => pid r.add)).Nodup) := by
  intro fas
  induction fas with
  | nil =>
    intro used recs hinv hnd
    rw [recsLoop]
    exact hnd
  | cons fa rest ih =>
    intro used recs hinv hnd
    rw [recsLoop]
    by_cases hmem : pid fa ∈ used
    · rw [if_pos hmem]
      exact ih used recs hinv hnd
    · rw [if_neg hmem]
      rcases hdp : findDrop pts (pts fa) dc with _ | dp <;> simp only [hdp]
      · split
        · exact hnd
        · exact ih used recs hinv hnd
      · have hnd2 : ((recs ++ [(⟨fa, dp, pts fa - pts dp⟩ : Reco α)]).map
            (fun r => pid r.add)).Nodup := by
          rw [List.map_append, List.nodup_append]
          refine ⟨hnd, by simp, ?_⟩
          intro x hx hx2
          simp only [List.map_cons, List.map_nil, List.mem_singleton] at hx2
          rcases List.mem_map.1 hx with ⟨r, hr, hx3⟩
          exact hmem (hx2 ▸ hx3 ▸ hinv r hr)
        have hinv2 : ∀ r ∈ recs ++ [(⟨fa, dp, pts fa - pts dp⟩ : Reco α)],
            pid r.add ∈ used ++ [pid fa] := by
          intro r hr
          rcases List.mem_append.1 hr with h | h
          · exact List.mem_append_left _ (hinv r h)
          · simp only [List.mem_singleton] at h
            subst h
            simp
        split
        · exact hnd2
        · exact ih _ _ hinv2 hnd2

/-! ## C4 -/

/-- Inversion: a normal waiver response's recommendations come from the
greedy loop over the availability-filtered, descending-sorted free agents
with the returned drop candidates. -/
theorem waiver_ok_loop {α : Type} (pts : α → ℚ) (pid : α → Option ℤ)
    (unavailable : α → Bool) (roster free_agents : List α) (limit : ℤ)
    (did : Option ℤ) (dc : List α) (recs : List (Reco α))
    (h : waiver_recommendations pts pid unavailable roster free_agents limit did
          = WaiverResult.ok dc recs) :
    recs = recsLoop pts pid dc limit
      ((free_agents.filter (fun p => !(unavailable p))).insertionSort
        (fun a b => pts b ≤ pts a)) [] [] := by
  simp only [waiver_recommendations] at h
  split at h
  · exact WaiverResult.noConfusion h
  · split at h
    all_goals first
      | exact WaiverResult.noConfusion h
      | (injection h with h1 h2; subst h1; exact h2.symm)

/-- C4 (amended): in every normal waiver response, each recommendation
pairs a free agent with the FIRST drop candidate of strictly smaller
projection (with the positive gain recorded), no free-agent id is used as
an add twice, the result is ordered by descending add-projection, and the
result has at most `max limit 1` entries — the limit check runs only after
a free agent is fully processed, so a non-positive limit still admits one
recommendation. -/
theorem C4_greedy_matching {α : Type} (pts : α → ℚ) (pid : α → Option ℤ)
    (unavailable : α → Bool) (roster free_agents : List α) (limit : ℤ)
    (did : Option ℤ) (dc : List α) (recs : List (Reco α))
    (h : waiver_recommendations pts pid unavailable roster free_agents limit did
          = WaiverResult.ok dc recs) :
    ((recs.length : ℤ) ≤ max limit 1)
    ∧ (∀ r ∈ recs, r.drop ∈ dc
        ∧ findDrop pts (pts r.add) dc = some r.drop
        ∧ r.gain = pts r.add - pts r.drop ∧ 0 < r.gain)
    ∧ ((recs.map (fun r => pid r.add)).Nodup)
    ∧ ((recs.map (fun r => pts r.add)).Pairwise (fun x y => y ≤ x)) := by
  have hrecs := waiver_ok_loop pts pid unavailable roster free_agents limit did
    dc recs h
  subst hrecs
  refine ⟨?_, ?_, ?_, ?_⟩
  · have hb := recsLoop_length_bound pts pid dc limit
      ((free_agents.filter (fun p => !(unavailable p))).insertionSort
        (fun a b => pts b ≤ pts a)) [] []
    simpa using hb
  · intro r hr
    rcases recsLoop_mem pts pid dc limit _ _ _ r hr with h2 | h2
    · simp at h2
    · exact ⟨findDrop_mem _ _ _ _ h2.1, h2.1, h2.2,
        by rw [h2.2]; exact findDrop_pos _ _ _ _ h2.1⟩
  · exact recsLoop_nodup pts pid dc limit _ [] [] (by simp) (by simp)
  · obtain ⟨sub, h1, h2⟩ := recsLoop_split pts pid dc limit
      ((free_agents.filter (fun p => !(unavailable p))).insertionSort
        (fun a b => pts b ≤ pts a)) [] []
    rw [h1, List.nil_append]
    have hsorted :
        ((free_agents.filter (fun p => !(unavailable p))).insertionSort
          (fun a b => pts b ≤ pts a)).Pairwise (fun a b => pts b ≤ pts a) := by
      haveI : IsTotal α (fun a b => pts b ≤ pts a) := ⟨fun a b => le_total _ _⟩
      haveI : IsTrans α (fun a b => pts b ≤ pts a) :=
        ⟨fun a b c hab hbc => le_trans hbc hab⟩
      exact List.sorted_insertionSort _ _
    have hsub : ((sub.map (fun r => r.add)).Pairwise (fun a b => pts b ≤ pts a)) :=
      List.Pairwise.sublist h2 hsorted
    have hmm : sub.map (fun r => pts r.add) = (sub.map (fun r => r.add)).map pts := by
      rw [List.map_map]
      rfl
    rw [hmm, List.pairwise_map]
    exact hsub

/-- C4 counterexample: with `limit = 0`, one recommendation is still
emitted (the limit check runs only after a free agent is processed), so the
result does NOT have at most `limit` entries. -/
theorem C4_counterexample :
    waiver_recommendations (fun x : ℤ => (x : ℚ)) (fun x => some x) (fun _ => false)
        [2] [10] 0 none
      = WaiverResult.ok ([2] : List ℤ)
          [({ add := 10, drop := 2, gain := 8 } : Reco ℤ)]
    ∧ ¬ ((([({ add := 10, drop := 2, gain := 8 } : Reco ℤ)] : List (Reco ℤ)).length : ℤ)
          ≤ 0) := by
  constructor
  · simp only [waiver_recommendations, recsLoop, findDrop, List.insertionSort,
      List.orderedInsert, List.filter, List.isEmpty, List.take]
    norm_num
  · simp

/-- Witness for C4 (amended), on the spec's worked example: drop candidates
`[2pts, 5pts]`, free agents `[10pts, 3pts]`, limit 2 — both free agents
pair with the first (2pts) candidate, reusing it, in descending add order. -/
theorem C4_witness :
    ((([({ add := 10, drop := 2, gain := 8 } : Reco ℤ),
        ({ add := 3, drop := 2, gain := 1 } : Reco ℤ)] : List (Reco ℤ)).length : ℤ)
        ≤ max 2 1)
    ∧ (∀ r ∈ ([({ add := 10, drop := 2, gain := 8 } : Reco ℤ),
        ({ add := 3, drop := 2, gain := 1 } : Reco ℤ)] : List (Reco ℤ)),
        r.drop ∈ ([2, 5] : List ℤ)
        ∧ findDrop (fun x : ℤ => (x : ℚ)) ((fun x : ℤ => (x : ℚ)) r.add) [2, 5]
            = some r.drop
        ∧ r.gain = (fun x : ℤ => (x : ℚ)) r.add - (fun x : ℤ => (x : ℚ)) r.drop
        ∧ 0 < r.gain)
    ∧ ((([({ add := 10, drop := 2, gain := 8 } : Reco ℤ),
        ({ add := 3, drop := 2, gain := 1 } : Reco ℤ)] : List (Reco ℤ)).map
          (fun r => (fun x : ℤ => some x) r.add)).Nodup)
    ∧ ((([({ add := 10, drop := 2, gain := 8 } : Reco ℤ),
        ({ add := 3, drop := 2, gain := 1 } : Reco ℤ)] : List (Reco ℤ)).map
          (fun r => (fun x : ℤ => (x : ℚ)) r.add)).Pairwise (fun x y => y ≤ x)) := by
  have heval : waiver_recommendations (fun x : ℤ => (x : ℚ)) (fun x => some x)
      (fun _ => false) [2, 5] [10, 3] 2 none
      = WaiverResult.ok ([2, 5] : List ℤ)
          [({ add := 10, drop := 2, gain := 8 } : Reco ℤ),
           ({ add := 3, drop := 2, gain := 1 } : Reco ℤ)] := by
    simp only [waiver_recommendations, recsLoop, findDrop, List.insertionSort,
      List.orderedInsert, List.filter, List.isEmpty, List.take]
    norm_num
  exact C4_greedy_matching (fun x : ℤ => (x : ℚ)) (fun x => some x)
    (fun _ => false) [2, 5] [10, 3] 2 none _ _ heval

/-! ## C6 -/

/-- C6 (amended): provided the availability-filtered roster is non-empty,
a forced-drop id matching no roster player fails with the Not-found error
(no recommendations are produced); a matching id forces the drop-candidate
list to exactly that singleton; and with no forced id the candidates are
the `min 6 n` lowest-projected players of the filtered roster in ascending
projection order (every non-candidate projects at least as high as every
candidate). -/
theorem C6_forced_drop_selection {α : Type} (pts : α → ℚ) (pid : α → Option ℤ)
    (unavailable : α → Bool) (roster free_agents : List α) (limit : ℤ)
    (did : ℤ)
    (hne : roster.filter (fun p => !(unavailable p)) ≠ []) :
    ((∀ p ∈ roster.filter (fun p => !(unavailable p)), pid p ≠ some did) →
      waiver_recommendations pts pid unavailable roster free_agents limit (some did)
        = WaiverResult.dropNotFound)
    ∧ (∀ fp, (roster.filter (fun p => !(unavailable p))).find?
          (fun p => pid p = some did) = some fp →
        ∃ recs, waiver_recommendations pts pid unavailable roster free_agents limit
            (some did) = WaiverResult.ok [fp] recs)
    ∧ (∃ dc recs,
        waiver_recommendations pts pid unavailable roster free_agents limit none
          = WaiverResult.ok dc recs
        ∧ (dc.map pts).Pairwise (fun x y => x ≤ y)
        ∧ dc.length = min 6 (roster.filter (fun p => !(unavailable p))).length
        ∧ ∃ rest, (dc ++ rest).Perm (roster.filter (fun p => !(unavailable p)))
            ∧ ∀ c ∈ dc, ∀ x ∈ rest, pts c ≤ pts x) := by
  have hF : (roster.filter (fun p => !(unavailable p))).isEmpty = false := by
    rcases hcase : roster.filter (fun p => !(unavailable p)) with _ | ⟨x, xs⟩
    · exact absurd hcase hne
    · rfl
  haveI : IsTotal α (fun a b => pts a ≤ pts b) := ⟨fun a b => le_total _ _⟩
  haveI : IsTrans α (fun a b => pts a ≤ pts b) := ⟨fun a b c => le_trans⟩
  refine ⟨?_, ?_, ?_⟩
  · intro hp
    have hfind : (roster.filter (fun p => !(unavailable p))).find?
        (fun p => pid p = some did) = none := by
      rw [List.find?_eq_none]
      intro x hx
      simpa using hp x hx
    simp only [waiver_recommendations, hF, Bool.false_eq_true, if_false, hfind]
  · intro fp hfind
    have heq : waiver_recommendations pts pid unavailable roster free_agents limit
        (some did)
        = WaiverResult.ok [fp]
            (recsLoop pts pid [fp] limit
              ((free_agents.filter (fun p => !(unavailable p))).insertionSort
                (fun a b => pts b ≤ pts a)) [] []) := by
      simp only [waiver_recommendations, hF, Bool.false_eq_true, if_false, hfind]
    exact ⟨_, heq⟩
  · have hsorted : ((roster.filter (fun p => !(unavailable p))).insertionSort
        (fun a b => pts a ≤ pts b)).Pairwise (fun a b => pts a ≤ pts b) :=
      List.sorted_insertionSort _ _
    have hperm := List.perm_insertionSort (fun a b => pts a ≤ pts b)
      (roster.filter (fun p => !(unavailable p)))
    have heq : waiver_recommendations pts pid unavailable roster free_agents limit none
        = WaiverResult.ok
            (((roster.filter (fun p => !(unavailable p))).insertionSort
              (fun a b => pts a ≤ pts b)).take 6)
            (recsLoop pts pid
              (((roster.filter (fun p => !(unavailable p))).insertionSort
                (fun a b => pts a ≤ pts b)).take 6) limit
              ((free_agents.filter (fun p => !(unavailable p))).insertionSort
                (fun a b => pts b ≤ pts a)) [] []) := by
      simp only [waiver_recommendations, hF, Bool.false_eq_true, if_false]
    refine ⟨_, _, heq, ?_, ?_, ?_⟩
    · have hdc : (((roster.filter (fun p => !(unavailable p))).insertionSort
          (fun a b => pts a ≤ pts b)).take 6).Pairwise (fun a b => pts a ≤ pts b) :=
        hsorted.take
      have hmm : (((roster.filter (fun p => !(unavailable p))).insertionSort
            (fun a b => pts a ≤ pts b)).take 6).map pts
          = ((((roster.filter (fun p => !(unavailable p))).insertionSort
            (fun a b => pts a ≤ pts b)).take 6).map id).map pts := by
        rw [List.map_id]
      rw [hmm, List.map_id, List.pairwise_map]
      exact hdc
    · rw [List.length_take, hperm.length_eq]
    · refine ⟨((roster.filter (fun p => !(unavailable p))).insertionSort
          (fun a b => pts a ≤ pts b)).drop 6, ?_, ?_⟩
      · rw [List.take_append_drop]
        exact hperm
      · have hsplit := hsorted
        rw [← List.take_append_drop 6 ((roster.filter (fun p => !(unavailable p))).insertionSort
          (fun a b => pts a ≤ pts b))] at hsplit
        exact (List.pairwise_append.1 hsplit).2.2

/-- C6 counterexample: with an empty (availability-filtered) roster and a
forced-drop id that matches no player, the handler returns the early
empty-recommendation response instead of failing with Not-found — the
empty-roster check runs before the forced-drop lookup. -/
theorem C6_counterexample :
    waiver_recommendations (fun x : ℤ => (x : ℚ)) (fun x => some x) (fun _ => false)
        ([] : List ℤ) ([] : List ℤ) 10 (some 5) = WaiverResult.emptyRoster
    ∧ (WaiverResult.emptyRoster : WaiverResult ℤ) ≠ WaiverResult.dropNotFound := by
  exact ⟨rfl, by decide⟩

/-- Witness for C6 (amended): on the non-empty roster `[3, 1, 2]` (ids =
projections), the absent forced id 9 yields the Not-found outcome. -/
theorem C6_witness :
    waiver_recommendations (fun x : ℤ => (x : ℚ)) (fun x => some x) (fun _ => false)
        [3, 1, 2] ([] : List ℤ) 10 (some 9) = WaiverResult.dropNotFound := by
  have h := C6_forced_drop_selection (fun x : ℤ => (x : ℚ)) (fun x => some x)
    (fun _ => false) [3, 1, 2] ([] : List ℤ) 10 9 (by decide)
  exact h.1 (by decide)
